import Mathlib

/-
Verification of the WooCommerce REST API JS client (src/index.mjs, with the
compiled CommonJS build and the TypeScript declarations in src/index.d.ts).

Strings are modelled as `List Char`.  JavaScript objects appearing in the code
(headers, query parameters, the assembled axios options, the axiosConfig
override map) are modelled as insertion-ordered association lists together
with the JS object-assignment (`jsSet`), property-lookup (`jsLookup`) and
object-spread (`spread`) semantics.  JS string truthiness (`!opt.url`,
`if (this.jwtToken)`) conflates `undefined` and `""`; both are modelled by the
empty list, which is observationally exact for every code path embedded here.
-/

namespace Woo

/- Characters of a Lean string literal, used to write concrete JS strings. -/
def chars (s : String) : List Char := s.data

/- JS property lookup on an object modelled as an association list: the first
binding of the key, if any. -/
def jsLookup {α : Type} : List (List Char × α) → List Char → Option α
  | [], _ => none
  | (k', v) :: rest, k => if k' = k then some v else jsLookup rest k

/- JS property assignment `o[k] = v`: overwrite the first binding of `k` in
place, otherwise append the new binding (JS insertion order). -/
def jsSet {α : Type} : List (List Char × α) → List Char → α → List (List Char × α)
  | [], k, v => [(k, v)]
  | (k', v') :: rest, k, v =>
    if k' = k then (k', v) :: rest else (k', v') :: jsSet rest k v

/- JS object spread of two objects with unique keys, as in the source's
`{ ...base, ...override }`: keys of `base` keep their position but take the
override's value when the override also binds them; keys only in the override
are appended in order. -/
def spread {α : Type} (base override : List (List Char × α)) : List (List Char × α) :=
  base.map (fun p => (p.1, (jsLookup override p.1).getD p.2))
    ++ override.filter (fun p => (jsLookup base p.1).isNone)

/- A query-parameter value: a scalar string, or a one-level nested object of
scalar strings (`typeof value === "object"` in `_parseParamsObject`).
JS `null` and array values are not exercised by the embedded code paths. -/
inductive PValue : Type
  | str (s : List Char)
  | obj (props : List (List Char × List Char))
deriving DecidableEq

/- The params mapping passed per call and the query mapping built from it. -/
abbrev JQuery := List (List Char × PValue)

/- A value of the assembled axios options object. -/
inductive JsVal : Type
  | undef
  | str (s : List Char)
  | num (n : Nat)
  | strMap (m : List (List Char × List Char))
  | pMap (m : JQuery)
deriving DecidableEq

abbrev JMap := List (List Char × JsVal)

abbrev Headers := List (List Char × List Char)

/- The constructor's input object `opt`.  A missing string field and an empty
string field are both falsy in JS and both modelled as `[]`. -/
structure Opt where
  url : List Char := []
  jwtToken : List Char := []
  wpAPIPrefix : List Char := []
  version : List Char := []
  encoding : List Char := []
  port : List Char := []
  timeout : Option Nat := none
  axiosConfig : JMap := []
deriving DecidableEq

/- The client instance after `_setDefaultsOptions`; fields as assigned there
plus `classVersion` assigned by the constructor. -/
structure Client where
  classVersion : List Char
  url : List Char
  wpAPIPrefix : List Char
  version : List Char
  jwtToken : List Char
  encoding : List Char
  port : List Char
  timeout : Option Nat
  axiosConfig : JMap
deriving DecidableEq

/- The `OptionsException` class: `name` is "Options Error". -/
structure OptionsException where
  name : List Char
  message : List Char
deriving DecidableEq

/- JS `x || d` on strings: the default when `x` is falsy (absent or empty). -/
def jsOr (x d : List Char) : List Char := if x.isEmpty then d else x

/- `_setDefaultsOptions(opt)`.  `opt.port || ""` keeps the configured port
(modelled as its decimal string) and turns an absent port into `""`; the
`axiosConfig` default `{}` is the empty map, which also models absence. -/
def setDefaultsOptions (classVersion : List Char) (opt : Opt) : Client where
  classVersion := classVersion
  url := opt.url
  wpAPIPrefix := jsOr opt.wpAPIPrefix (chars "wp-json")
  version := jsOr opt.version (chars "wc/v3")
  jwtToken := opt.jwtToken
  encoding := jsOr opt.encoding (chars "utf8")
  port := jsOr opt.port []
  timeout := opt.timeout
  axiosConfig := opt.axiosConfig

/- The constructor of src/index.mjs: rejects a falsy `url`, then a falsy
`jwtToken`, then sets `classVersion = "1.0.1"` and the defaults. -/
def construct (opt : Opt) : Except OptionsException Client :=
  if opt.url.isEmpty then
    Except.error ⟨chars "Options Error", chars "url is required"⟩
  else if opt.jwtToken.isEmpty then
    Except.error ⟨chars "Options Error", chars "jwtToken is required"⟩
  else
    Except.ok (setDefaultsOptions (chars "1.0.1") opt)

/- The constructor of the compiled build (second document of src/index.d.ts):
the `jwtToken` check is commented out there, so only `url` is required. -/
def constructDist (opt : Opt) : Except OptionsException Client :=
  if opt.url.isEmpty then
    Except.error ⟨chars "Options Error", chars "url is required"⟩
  else
    Except.ok (setDefaultsOptions (chars "1.0.1") opt)

/- Drop everything through the first scheme separator "://". -/
def dropScheme : List Char → List Char
  | ':' :: '/' :: '/' :: rest => rest
  | _ :: rest => dropScheme rest
  | [] => []

/- Take the authority up to the next delimiter. -/
def hostTake : List Char → List Char
  | [] => []
  | c :: rest =>
    if c = '/' ∨ c = ':' ∨ c = '?' ∨ c = '@' then [] else c :: hostTake rest

/- Modelled from the spec: the repository consumes an external URL parsing
utility "only to extract a hostname from a fully composed URL string for the
port-splicing step" (`new Url(url).hostname` from the url-parse package, which
is not part of this repository).  The hostname is the authority component
following the scheme separator, up to the next path, port or userinfo
delimiter. -/
def urlHostname (url : List Char) : List Char :=
  hostTake (dropScheme url)

/- JS `String.prototype.replace` with a plain-string pattern: replace the
FIRST occurrence of `pat` only (an empty pattern matches at position 0, as in
JS). -/
def jsReplace (pat rep : List Char) : List Char → List Char
  | [] => if pat.isPrefixOf ([] : List Char) then rep else []
  | c :: rest =>
    if pat.isPrefixOf (c :: rest) then rep ++ (c :: rest).drop pat.length
    else c :: jsReplace pat rep rest

/- `_getUrl(endpoint, params)` (identical in the .mjs source and the compiled
build; `params` is accepted but unused there). -/
def getUrl (c : Client) (endpoint : List Char) : List Char :=
  let api := c.wpAPIPrefix ++ ['/']
  let url := if c.url.getLast? = some '/' then c.url else c.url ++ ['/']
  let url := url ++ api ++ c.version ++ ['/'] ++ endpoint
  if c.port ≠ [] then
    let hostname := urlHostname url
    jsReplace hostname (hostname ++ [':'] ++ c.port) url
  else url

/- `key.toString() + "[" + prop.toString() + "]"` of `_parseParamsObject`. -/
def bracketKey (k p : List Char) : List Char := k ++ ['['] ++ p ++ [']']

/- Inner loop of `_parseParamsObject`: for a nested-object value, assign
`query[key + "[" + prop + "]"] = value[prop]` for each property in order. -/
def parseParamsProps (k : List Char) : List (List Char × List Char) → JQuery → JQuery
  | [], query => query
  | (p, pv) :: rest, query =>
    parseParamsProps k rest (jsSet query (bracketKey k p) (PValue.str pv))

/- `_parseParamsObject(params, query)`: one level of nested-object expansion
into bracketed keys; scalars pass through under their original key. -/
def parseParamsObject : JQuery → JQuery → JQuery
  | [], query => query
  | (k, PValue.str s) :: rest, query => parseParamsObject rest (jsSet query k (PValue.str s))
  | (k, PValue.obj props) :: rest, query => parseParamsObject rest (parseParamsProps k props query)

/- Following the spec's words, for comparison with `parseParamsObject` (the
refinement reference, not taken from the code): "for each key in the input
mapping, if the value is a nested object, expand it into multiple keys of the
form key[subkey] each mapped to the corresponding scalar; otherwise pass the
scalar through unchanged under the original key". -/
def specFlattenParams (params : JQuery) : JQuery :=
  params.flatMap fun p =>
    match p.2 with
    | PValue.str s => [(p.1, PValue.str s)]
    | PValue.obj props => props.map fun q => (bracketKey p.1 q.1, PValue.str q.2)

/- A JSON-serializable request body, as handed to `JSON.stringify`. -/
inductive JBody : Type
  | jbool (b : Bool)
  | jnum (n : Nat)
  | jstr (s : List Char)
  | jobj (fields : List (List Char × JBody))

/- JS truthiness of a body value, as tested by `if (data)`. -/
def jsTruthy : JBody → Bool
  | JBody.jbool b => b
  | JBody.jnum n => n != 0
  | JBody.jstr s => !s.isEmpty
  | JBody.jobj _ => true

/- Truthiness of the `data` argument: `null` / absent (`none`) is falsy. -/
def jsTruthyOpt : Option JBody → Bool
  | none => false
  | some b => jsTruthy b

/- JSON string escaping for quotes and backslashes. -/
def jsEscape : List Char → List Char
  | [] => []
  | c :: rest =>
    (if c = '"' then ['\\', '"'] else if c = '\\' then ['\\', '\\'] else [c]) ++ jsEscape rest

def jsQuote (s : List Char) : List Char := '"' :: (jsEscape s ++ ['"'])

mutual

/- `JSON.stringify` on the modelled body values. -/
def jsonStringify : JBody → List Char
  | JBody.jbool true => chars "true"
  | JBody.jbool false => chars "false"
  | JBody.jnum n => Nat.toDigits 10 n
  | JBody.jstr s => jsQuote s
  | JBody.jobj fields => '\x7b' :: (jsonFields fields ++ ['\x7d'])

def jsonFields : List (List Char × JBody) → List Char
  | [] => []
  | [(k, v)] => jsQuote k ++ [':'] ++ jsonStringify v
  | (k, v) :: rest => jsQuote k ++ [':'] ++ jsonStringify v ++ [','] ++ jsonFields rest

end

/- `_request(method, endpoint, data, params)` of src/index.mjs, returning the
options object handed to `axios`.  `env` is true when the runtime exposes a
node `process` (the User-Agent branch).  In the source the `headers` object is
placed inside `options` and then mutated through that alias (Authorization,
Content-Type); the pure embedding applies those writes before building the
options map, which is observationally identical because nothing reads the
headers in between.  `options.params = { ...options.params, ...params }`
spreads an absent `options.params`, i.e. it stores a shallow copy of `params`.
The .mjs variant sets the Authorization header unconditionally. -/
def request (c : Client) (env : Bool) (method endpoint : List Char)
    (data : Option JBody) (params : JQuery) : JMap :=
  let url := getUrl c endpoint
  let headers : Headers := [(chars "Accept", chars "application/json")]
  let headers := if env then
    jsSet headers (chars "User-Agent")
      (chars "WooCommerce REST API - JS Client/" ++ c.classVersion)
    else headers
  let headers := jsSet headers (chars "Authorization") (chars "Bearer " ++ c.jwtToken)
  let headers := if jsTruthyOpt data then
    jsSet headers (chars "Content-Type") (chars "application/json;charset=utf-8")
    else headers
  let options : JMap := [
    (chars "url", JsVal.str url),
    (chars "method", JsVal.str method),
    (chars "responseEncoding", JsVal.str c.encoding),
    (chars "timeout", match c.timeout with | some n => JsVal.num n | none => JsVal.undef),
    (chars "responseType", JsVal.str (chars "json")),
    (chars "headers", JsVal.strMap headers)]
  let options := jsSet options (chars "params") (JsVal.pMap params)
  let options := match data with
    | some b => if jsTruthy b then
        jsSet options (chars "data") (JsVal.str (jsonStringify b))
      else options
    | none => options
  spread options c.axiosConfig

/- `_request` of the compiled build (second document of src/index.d.ts):
identical to the .mjs variant except that the Authorization header is guarded
by `if (this.jwtToken)`. -/
def requestDist (c : Client) (env : Bool) (method endpoint : List Char)
    (data : Option JBody) (params : JQuery) : JMap :=
  let url := getUrl c endpoint
  let headers : Headers := [(chars "Accept", chars "application/json")]
  let headers := if env then
    jsSet headers (chars "User-Agent")
      (chars "WooCommerce REST API - JS Client/" ++ c.classVersion)
    else headers
  let headers := if c.jwtToken.isEmpty then headers
    else jsSet headers (chars "Authorization") (chars "Bearer " ++ c.jwtToken)
  let headers := if jsTruthyOpt data then
    jsSet headers (chars "Content-Type") (chars "application/json;charset=utf-8")
    else headers
  let options : JMap := [
    (chars "url", JsVal.str url),
    (chars "method", JsVal.str method),
    (chars "responseEncoding", JsVal.str c.encoding),
    (chars "timeout", match c.timeout with | some n => JsVal.num n | none => JsVal.undef),
    (chars "responseType", JsVal.str (chars "json")),
    (chars "headers", JsVal.strMap headers)]
  let options := jsSet options (chars "params") (JsVal.pMap params)
  let options := match data with
    | some b => if jsTruthy b then
        jsSet options (chars "data") (JsVal.str (jsonStringify b))
      else options
    | none => options
  spread options c.axiosConfig

/- The headers object of an assembled options map. -/
def optHeaders (m : JMap) : Headers :=
  match jsLookup m (chars "headers") with
  | some (JsVal.strMap h) => h
  | _ => []

/- One public verb call.  None of the verb methods (nor `_getUrl` nor
`_request`) contains an assignment to `this`, so in the state-passing
embedding each call returns the client unchanged together with the options it
dispatches. -/
inductive Call : Type
  | get (endpoint : List Char) (params : JQuery)
  | post (endpoint : List Char) (data : Option JBody) (params : JQuery)
  | put (endpoint : List Char) (data : Option JBody) (params : JQuery)
  | del (endpoint : List Char) (params : JQuery)
  | opts (endpoint : List Char) (params : JQuery)

/- Run one verb call: `get`/`delete`/`options` pass a `null` body; `post` and
`put` pass their body through to `_request` with the matching method name. -/
def runCall (c : Client) (env : Bool) : Call → Client × JMap
  | Call.get ep ps => (c, request c env (chars "get") ep none ps)
  | Call.post ep d ps => (c, request c env (chars "post") ep d ps)
  | Call.put ep d ps => (c, request c env (chars "put") ep d ps)
  | Call.del ep ps => (c, request c env (chars "delete") ep none ps)
  | Call.opts ep ps => (c, request c env (chars "options") ep none ps)

/- Run a sequence of verb calls, threading the client state. -/
def runCalls (env : Bool) : Client → List Call → Client
  | c, [] => c
  | c, call :: rest => runCalls env (runCall c env call).1 rest

/- A representative configuration: base URL without trailing slash, a token,
everything else defaulted. -/
def optEx : Opt := { url := chars "https://shop.example.com", jwtToken := chars "token123" }

def clientEx : Client := setDefaultsOptions (chars "1.0.1") optEx

/- A configuration with a port override and a trailing-slash base URL. -/
def optPort : Opt :=
  { url := chars "https://shop.example.com/", jwtToken := chars "token123",
    port := chars "8080" }

def clientPort : Client := setDefaultsOptions (chars "1.0.1") optPort

/- The spec's flattening example: a scalar parameter and a one-level nested
object parameter. -/
def paramsEx : JQuery :=
  [(chars "status", PValue.str (chars "publish")),
   (chars "meta", PValue.obj [(chars "key", chars "color"), (chars "value", chars "red")])]

/- A configuration that supplies `url` but no `jwtToken`. -/
def optNoTok : Opt := { url := chars "https://shop.example.com" }

/- A client whose transport override map replaces the `method` option. -/
def clientOv : Client :=
  { clientEx with axiosConfig := [(chars "method", JsVal.str (chars "head"))] }

/- A representative truthy request body. -/
def bodyEx : JBody := JBody.jobj [(chars "name", JBody.jstr (chars "Woo Shirt"))]

/- The bracket-suffixed flat bindings generated from one nested-object value;
the right-hand side of `specFlattenParams` on an object-valued key. -/
def genProps (k : List Char) (props : List (List Char × List Char)) : JQuery :=
  props.map fun q => (bracketKey k q.1, PValue.str q.2)

theorem jsLookup_append {α : Type} (a b : List (List Char × α)) (k : List Char) :
    jsLookup (a ++ b) k = match jsLookup a k with
      | some v => some v
      | none => jsLookup b k := by
  induction a with
  | nil => simp [jsLookup]
  | cons p rest ih =>
    by_cases h : p.1 = k <;> simp [jsLookup, h, ih]

theorem jsLookup_not_mem {α : Type} (m : List (List Char × α)) (k : List Char)
    (h : k ∉ m.map Prod.fst) : jsLookup m k = none := by
  induction m with
  | nil => rfl
  | cons p rest ih =>
    have h1 : ¬ (p.1 = k) := by
      intro he
      exact h (by rw [← he]; exact List.mem_map_of_mem Prod.fst (List.mem_cons_self p rest))
    have h2 : k ∉ rest.map Prod.fst := by
      intro hm
      rcases List.mem_map.mp hm with ⟨q, hq, hqk⟩
      exact h (List.mem_map.mpr ⟨q, List.mem_cons_of_mem p hq, hqk⟩)
    simp [jsLookup, h1, ih h2]

theorem jsLookup_map_replace {α : Type} (b o : List (List Char × α)) (k : List Char) :
    jsLookup (b.map (fun p => (p.1, (jsLookup o p.1).getD p.2))) k
      = match jsLookup b k with
        | some v => some ((jsLookup o k).getD v)
        | none => none := by
  induction b with
  | nil => simp [jsLookup]
  | cons p rest ih =>
    by_cases h : p.1 = k <;> simp [jsLookup, h, ih]

theorem jsLookup_filter_none {α : Type} (b o : List (List Char × α)) (k : List Char)
    (hb : jsLookup b k = none) :
    jsLookup (o.filter (fun p => (jsLookup b p.1).isNone)) k = jsLookup o k := by
  induction o with
  | nil => simp [jsLookup]
  | cons p rest ih =>
    by_cases h : p.1 = k
    · subst h
      simp [List.filter, hb, jsLookup, ih]
    · by_cases h2 : (jsLookup b p.1).isNone <;> simp [List.filter, h2, jsLookup, h, ih]

theorem jsLookup_spread_of_some {α : Type} (b o : List (List Char × α)) (k : List Char)
    {v : α} (h : jsLookup o k = some v) :
    jsLookup (spread b o) k = some v := by
  unfold spread
  rw [jsLookup_append, jsLookup_map_replace]
  cases hb : jsLookup b k with
  | some w => simp [h]
  | none => simp [jsLookup_filter_none b o k hb, h]

theorem jsLookup_spread_of_none {α : Type} (b o : List (List Char × α)) (k : List Char)
    (h : jsLookup o k = none) :
    jsLookup (spread b o) k = jsLookup b k := by
  unfold spread
  rw [jsLookup_append, jsLookup_map_replace]
  cases hb : jsLookup b k with
  | some w => simp [h]
  | none => simp [jsLookup_filter_none b o k hb, h, hb]

theorem jsSet_fresh {α : Type} (q : List (List Char × α)) (k : List Char) (v : α)
    (h : jsLookup q k = none) : jsSet q k v = q ++ [(k, v)] := by
  induction q with
  | nil => rfl
  | cons p rest ih =>
    obtain ⟨k', v'⟩ := p
    by_cases hk : k' = k
    · simp [jsLookup, hk] at h
    · simp only [jsLookup, if_neg hk] at h
      simp [jsSet, hk, ih h]

theorem parseParamsProps_fresh (k : List Char) (props : List (List Char × List Char)) :
    ∀ query : JQuery,
      (∀ key ∈ (genProps k props).map Prod.fst, jsLookup query key = none) →
      ((genProps k props).map Prod.fst).Nodup →
      parseParamsProps k props query = query ++ genProps k props := by
  induction props with
  | nil => intro query _ _; simp [parseParamsProps, genProps]
  | cons p rest ih =>
    intro query hfresh hnodup
    obtain ⟨pk, pv⟩ := p
    have hfresh2 : ∀ key ∈ bracketKey k pk :: (genProps k rest).map Prod.fst,
        jsLookup query key = none := fun key hk => hfresh key hk
    have hnodup2 : (bracketKey k pk :: (genProps k rest).map Prod.fst).Nodup := hnodup
    have hcons := List.nodup_cons.mp hnodup2
    have hk0 : jsLookup query (bracketKey k pk) = none :=
      hfresh2 _ (List.mem_cons_self _ _)
    have hset := jsSet_fresh query (bracketKey k pk) (PValue.str pv) hk0
    have hfresh' : ∀ key ∈ (genProps k rest).map Prod.fst,
        jsLookup (query ++ [(bracketKey k pk, PValue.str pv)]) key = none := by
      intro key hmem
      have h1 : jsLookup query key = none := hfresh2 key (List.mem_cons_of_mem _ hmem)
      have hne : ¬ (bracketKey k pk = key) := by
        intro he
        exact hcons.1 (by rw [he]; exact hmem)
      have h2 : jsLookup [(bracketKey k pk, PValue.str pv)] key = none := by
        simp only [jsLookup]
        rw [if_neg hne]
      simp [jsLookup_append, h1, h2]
    calc parseParamsProps k ((pk, pv) :: rest) query
        = parseParamsProps k rest (jsSet query (bracketKey k pk) (PValue.str pv)) := rfl
      _ = parseParamsProps k rest (query ++ [(bracketKey k pk, PValue.str pv)]) := by
          rw [hset]
      _ = (query ++ [(bracketKey k pk, PValue.str pv)]) ++ genProps k rest :=
          ih _ hfresh' hcons.2
      _ = query ++ ((bracketKey k pk, PValue.str pv) :: genProps k rest) := by simp

theorem parseParamsObject_fresh :
    ∀ (ps : JQuery) (query : JQuery),
      (∀ key ∈ (specFlattenParams ps).map Prod.fst, jsLookup query key = none) →
      ((specFlattenParams ps).map Prod.fst).Nodup →
      parseParamsObject ps query = query ++ specFlattenParams ps := by
  intro ps
  induction ps with
  | nil => intro query _ _; simp [parseParamsObject, specFlattenParams]
  | cons p rest ih =>
    intro query hfresh hnodup
    obtain ⟨k, v⟩ := p
    cases v with
    | str s =>
      have hfresh2 : ∀ key ∈ k :: (specFlattenParams rest).map Prod.fst,
          jsLookup query key = none := fun key hk => hfresh key hk
      have hnodup2 : (k :: (specFlattenParams rest).map Prod.fst).Nodup := hnodup
      have hcons := List.nodup_cons.mp hnodup2
      have hk : jsLookup query k = none := hfresh2 _ (List.mem_cons_self _ _)
      have hset := jsSet_fresh query k (PValue.str s) hk
      have hfresh' : ∀ key ∈ (specFlattenParams rest).map Prod.fst,
          jsLookup (query ++ [(k, PValue.str s)]) key = none := by
        intro key hmem
        have h1 : jsLookup query key = none := hfresh2 key (List.mem_cons_of_mem _ hmem)
        have hne : ¬ (k = key) := by
          intro he
          exact hcons.1 (by rw [he]; exact hmem)
        have h2 : jsLookup [(k, PValue.str s)] key = none := by
          simp only [jsLookup]
          rw [if_neg hne]
        simp [jsLookup_append, h1, h2]
      calc parseParamsObject ((k, PValue.str s) :: rest) query
          = parseParamsObject rest (jsSet query k (PValue.str s)) := rfl
        _ = parseParamsObject rest (query ++ [(k, PValue.str s)]) := by rw [hset]
        _ = (query ++ [(k, PValue.str s)]) ++ specFlattenParams rest := ih _ hfresh' hcons.2
        _ = query ++ ((k, PValue.str s) :: specFlattenParams rest) := by simp
    | obj props =>
      have hfresh2 : ∀ key ∈ (genProps k props ++ specFlattenParams rest).map Prod.fst,
          jsLookup query key = none := fun key hk => hfresh key hk
      have hnodup2 : ((genProps k props ++ specFlattenParams rest).map Prod.fst).Nodup :=
        hnodup
      rw [List.map_append] at hfresh2 hnodup2
      have hsplit := List.nodup_append.mp hnodup2
      have hA : ∀ key ∈ (genProps k props).map Prod.fst, jsLookup query key = none :=
        fun key hmem => hfresh2 key (List.mem_append.mpr (Or.inl hmem))
      have hprops := parseParamsProps_fresh k props query hA hsplit.1
      have hfresh' : ∀ key ∈ (specFlattenParams rest).map Prod.fst,
          jsLookup (query ++ genProps k props) key = none := by
        intro key hmem
        have h1 : jsLookup query key = none :=
          hfresh2 key (List.mem_append.mpr (Or.inr hmem))
        have hnot : key ∉ (genProps k props).map Prod.fst :=
          fun hmemA => hsplit.2.2 hmemA hmem
        have h2 : jsLookup (genProps k props) key = none := jsLookup_not_mem _ _ hnot
        simp [jsLookup_append, h1, h2]
      calc parseParamsObject ((k, PValue.obj props) :: rest) query
          = parseParamsObject rest (parseParamsProps k props query) := rfl
        _ = parseParamsObject rest (query ++ genProps k props) := by rw [hprops]
        _ = (query ++ genProps k props) ++ specFlattenParams rest := ih _ hfresh' hsplit.2.1
        _ = query ++ (genProps k props ++ specFlattenParams rest) := by
            rw [List.append_assoc]

/-- C1 counterexample: with params containing a nested object, the query
mapping handed to the transport is the raw params mapping itself, which
differs from its flattened form, refuting the claim that the dispatched
query equals the flattened params. -/
theorem params_flattened_cex :
    jsLookup (request clientEx true (chars "get") (chars "products") none paramsEx)
        (chars "params") = some (JsVal.pMap paramsEx)
      ∧ parseParamsObject paramsEx [] ≠ paramsEx := by
  exact ⟨rfl, by decide⟩

/-- C1 (amended): for every dispatched request with default transport
overrides, the query mapping handed to the transport equals the params
mapping unchanged; no flattening is applied (`_parseParamsObject` is never
invoked on the dispatch path). -/
theorem dispatched_params_raw (c : Client) (env : Bool) (meth ep : List Char)
    (d : Option JBody) (ps : JQuery) (hax : c.axiosConfig = []) :
    jsLookup (request c env meth ep d ps) (chars "params") = some (JsVal.pMap ps) := by
  cases env <;> cases d with
  | none => simp [request, spread, jsSet, jsLookup, hax, chars]
  | some b =>
    by_cases hb : jsTruthy b <;>
      simp [request, spread, jsSet, jsLookup, jsTruthyOpt, hax, hb, chars]

/-- C1 witness: the amended theorem evaluated at a concrete client and the
example params. -/
theorem dispatched_params_raw_wit :
    clientEx.axiosConfig = []
      ∧ jsLookup (request clientEx true (chars "post") (chars "orders") none paramsEx)
          (chars "params") = some (JsVal.pMap paramsEx) :=
  ⟨rfl, dispatched_params_raw clientEx true (chars "post") (chars "orders") none paramsEx rfl⟩

/-- C2 counterexample: a configuration that supplies `url` but no `jwtToken`
still fails construction in the ESM source, refuting the claim that every
configuration supplying `url` constructs successfully. -/
theorem construct_jwt_required_cex :
    optNoTok.url ≠ []
      ∧ construct optNoTok
          = Except.error ⟨chars "Options Error", chars "jwtToken is required"⟩ := by
  exact ⟨by decide, rfl⟩

/-- C2 (amended): construction fails with the `OptionsException` error kind
exactly when `url` is falsy or (in the ESM source) when `jwtToken` is falsy;
with both supplied it succeeds; in the compiled build `url` alone suffices. -/
theorem construct_requirements (opt : Opt) :
    (opt.url = [] →
      construct opt = Except.error ⟨chars "Options Error", chars "url is required"⟩
      ∧ constructDist opt
          = Except.error ⟨chars "Options Error", chars "url is required"⟩)
    ∧ (opt.url ≠ [] → opt.jwtToken = [] →
      construct opt = Except.error ⟨chars "Options Error", chars "jwtToken is required"⟩)
    ∧ (opt.url ≠ [] → opt.jwtToken ≠ [] →
      construct opt = Except.ok (setDefaultsOptions (chars "1.0.1") opt))
    ∧ (opt.url ≠ [] →
      constructDist opt = Except.ok (setDefaultsOptions (chars "1.0.1") opt)) := by
  refine ⟨fun hu => ?_, fun hu hj => ?_, fun hu hj => ?_, fun hu => ?_⟩
  · constructor <;> simp [construct, constructDist, hu, List.isEmpty]
  · have hu' : opt.url.isEmpty = false := by
      cases h : opt.url with
      | nil => exact absurd h hu
      | cons a as => rfl
    simp [construct, hu', hj]
  · have hu' : opt.url.isEmpty = false := by
      cases h : opt.url with
      | nil => exact absurd h hu
      | cons a as => rfl
    have hj' : opt.jwtToken.isEmpty = false := by
      cases h : opt.jwtToken with
      | nil => exact absurd h hj
      | cons a as => rfl
    simp [construct, hu', hj']
  · have hu' : opt.url.isEmpty = false := by
      cases h : opt.url with
      | nil => exact absurd h hu
      | cons a as => rfl
    simp [constructDist, hu']

/-- C2 witness: a configuration with both `url` and `jwtToken` constructs
successfully, by the amended theorem. -/
theorem construct_requirements_wit :
    optEx.url ≠ [] ∧ optEx.jwtToken ≠ []
      ∧ construct optEx = Except.ok (setDefaultsOptions (chars "1.0.1") optEx) :=
  ⟨by decide, by decide, (construct_requirements optEx).2.2.1 (by decide) (by decide)⟩

/-- C3 counterexample: with port 8080 and an endpoint equal to the hostname,
the composed URL does not carry the port after the second occurrence of the
hostname, refuting the claim that both occurrences are spliced. -/
theorem port_splice_both_cex :
    getUrl clientPort (chars "shop.example.com")
      ≠ chars "https://shop.example.com:8080/wp-json/wc/v3/shop.example.com:8080" := by
  decide

/-- C3 (amended): when the hostname recurs in the composed URL as a path
segment, only its first occurrence — the host component — has the port
spliced after it (JS `String.replace` with a string pattern replaces only the
first match); the recurrence is left unchanged. -/
theorem port_splice_first_only :
    getUrl clientPort (chars "shop.example.com")
      = chars "https://shop.example.com:8080/wp-json/wc/v3/shop.example.com" := by
  rfl

/-- C4: with default transport overrides, a configured (truthy) bearer token
yields an `Authorization` header equal to `Bearer <token>` on every
dispatched request (in both the compiled build and the ESM source); with no
token configured, the compiled build omits the header entirely; and the ESM
source's constructor guarantees every constructed client has a truthy
token. -/
theorem bearer_header (c : Client) (env : Bool) (meth ep : List Char)
    (d : Option JBody) (ps : JQuery) (hax : c.axiosConfig = []) :
    (c.jwtToken ≠ [] →
      jsLookup (optHeaders (requestDist c env meth ep d ps)) (chars "Authorization")
        = some (chars "Bearer " ++ c.jwtToken))
    ∧ (c.jwtToken = [] →
      jsLookup (optHeaders (requestDist c env meth ep d ps)) (chars "Authorization")
        = none)
    ∧ (c.jwtToken ≠ [] →
      jsLookup (optHeaders (request c env meth ep d ps)) (chars "Authorization")
        = some (chars "Bearer " ++ c.jwtToken))
    ∧ (∀ opt c2, construct opt = Except.ok c2 → c2.jwtToken ≠ []) := by
  refine ⟨fun ht => ?_, fun ht => ?_, fun ht => ?_, fun opt c2 h => ?_⟩
  · have ht' : c.jwtToken.isEmpty = false := by
      cases h : c.jwtToken with
      | nil => exact absurd h ht
      | cons a as => rfl
    cases env <;> cases d with
    | none => simp [requestDist, optHeaders, spread, jsSet, jsLookup, hax, ht', chars]
    | some b =>
      by_cases hb : jsTruthy b <;>
        simp [requestDist, optHeaders, spread, jsSet, jsLookup, jsTruthyOpt, hax, ht',
          hb, chars]
  · cases env <;> cases d with
    | none => simp [requestDist, optHeaders, spread, jsSet, jsLookup, hax, ht, chars]
    | some b =>
      by_cases hb : jsTruthy b <;>
        simp [requestDist, optHeaders, spread, jsSet, jsLookup, jsTruthyOpt, hax, ht,
          hb, chars]
  · cases env <;> cases d with
    | none => simp [request, optHeaders, spread, jsSet, jsLookup, hax, chars]
    | some b =>
      by_cases hb : jsTruthy b <;>
        simp [request, optHeaders, spread, jsSet, jsLookup, jsTruthyOpt, hax, hb, chars]
  · unfold construct at h
    split at h
    · cases h
    · split at h
      · cases h
      · rename_i hu hj
        injection h with h2
        intro hc
        rw [← h2] at hc
        simp only [setDefaultsOptions] at hc
        rw [hc] at hj
        exact hj rfl

/-- C4 witness: the theorem evaluated at a concrete client with a configured
token. -/
theorem bearer_header_wit :
    clientEx.axiosConfig = [] ∧ clientEx.jwtToken ≠ []
      ∧ jsLookup (optHeaders (requestDist clientEx true (chars "get") (chars "products")
          none [])) (chars "Authorization")
        = some (chars "Bearer " ++ clientEx.jwtToken) :=
  ⟨rfl, by decide,
    (bearer_header clientEx true (chars "get") (chars "products") none [] rfl).1
      (by decide)⟩

/-- C5: every top-level key bound in the transport-override map determines
the dispatched option for that key in its entirety — the override's value
wins over the assembled base options. -/
theorem axios_override_wins (c : Client) (env : Bool) (meth ep : List Char)
    (d : Option JBody) (ps : JQuery) (k : List Char) (v : JsVal)
    (h : jsLookup c.axiosConfig k = some v) :
    jsLookup (request c env meth ep d ps) k = some v := by
  unfold request
  exact jsLookup_spread_of_some _ _ _ h

/-- C5 witness: an override binding `method` to "head" makes the dispatched
method "head" even though the base method is "get". -/
theorem axios_override_wins_wit :
    jsLookup clientOv.axiosConfig (chars "method") = some (JsVal.str (chars "head"))
      ∧ chars "head" ≠ chars "get"
      ∧ jsLookup (request clientOv true (chars "get") (chars "products") none [])
          (chars "method") = some (JsVal.str (chars "head")) :=
  ⟨rfl, by decide,
    axios_override_wins clientOv true (chars "get") (chars "products") none []
      (chars "method") (JsVal.str (chars "head")) rfl⟩

/-- C6: with no port configured, the composed URL is
base/prefix/version/endpoint in that order — exactly one separator is
inserted when the base does not end in a slash, and none is inserted when it
already does; and the spec's concrete example composes as stated. -/
theorem url_composition (c : Client) (ep : List Char) (hp : c.port = []) :
    (c.url.getLast? = some '/' →
      getUrl c ep = c.url ++ c.wpAPIPrefix ++ ['/'] ++ c.version ++ ['/'] ++ ep)
    ∧ (c.url.getLast? ≠ some '/' →
      getUrl c ep = c.url ++ ['/'] ++ c.wpAPIPrefix ++ ['/'] ++ c.version ++ ['/'] ++ ep)
    ∧ getUrl clientEx (chars "products")
        = chars "https://shop.example.com/wp-json/wc/v3/products" := by
  refine ⟨fun h => ?_, fun h => ?_, rfl⟩
  · simp [getUrl, hp, h, List.append_assoc]
  · simp [getUrl, hp, h, List.append_assoc]

/-- C6 witness: the theorem evaluated at the example client (base URL without
a trailing slash) and endpoint "products". -/
theorem url_composition_wit :
    clientEx.port = [] ∧ clientEx.url.getLast? ≠ some '/'
      ∧ getUrl clientEx (chars "products")
        = clientEx.url ++ ['/'] ++ clientEx.wpAPIPrefix ++ ['/'] ++ clientEx.version
            ++ ['/'] ++ chars "products" :=
  ⟨rfl, by decide, (url_composition clientEx (chars "products") rfl).2.1 (by decide)⟩

/-- C7: with port 8080 and base URL "https://shop.example.com/", every
composed URL starts with "https://shop.example.com:8080/" — the host segment
gains the port — and the rest of the URL is unchanged. -/
theorem port_host_in_composed_url (ep : List Char) :
    getUrl clientPort ep = chars "https://shop.example.com:8080/wp-json/wc/v3/" ++ ep := by
  rfl

/-- C8 counterexample: the body `0` is non-null but falsy, and the dispatched
options carry neither a `data` field nor a `Content-Type` header, refuting
the claim that every non-null body is serialized. -/
theorem body_falsy_omitted_cex :
    jsLookup (request clientEx true (chars "post") (chars "products")
        (some (JBody.jnum 0)) []) (chars "data") = none
      ∧ jsLookup (optHeaders (request clientEx true (chars "post") (chars "products")
          (some (JBody.jnum 0)) [])) (chars "Content-Type") = none := by
  exact ⟨rfl, rfl⟩

/-- C8 (amended): with default transport overrides, a truthy body yields
`Content-Type: application/json;charset=utf-8` and a `data` field equal to
the JSON serialization of the body; a falsy body (including null/absent)
yields neither. -/
theorem body_serialization (c : Client) (env : Bool) (meth ep : List Char)
    (d : Option JBody) (ps : JQuery) (hax : c.axiosConfig = []) :
    (∀ b, d = some b → jsTruthy b = true →
      jsLookup (request c env meth ep d ps) (chars "data")
          = some (JsVal.str (jsonStringify b))
        ∧ jsLookup (optHeaders (request c env meth ep d ps)) (chars "Content-Type")
          = some (chars "application/json;charset=utf-8"))
    ∧ (jsTruthyOpt d = false →
      jsLookup (request c env meth ep d ps) (chars "data") = none
        ∧ jsLookup (optHeaders (request c env meth ep d ps)) (chars "Content-Type")
          = none) := by
  constructor
  · intro b hd ht
    subst hd
    cases env <;>
      refine ⟨?_, ?_⟩ <;>
        simp [request, optHeaders, spread, jsSet, jsLookup, jsTruthyOpt, hax, ht, chars]
  · intro ht
    cases env <;> cases d with
    | none =>
      refine ⟨?_, ?_⟩ <;> simp [request, optHeaders, spread, jsSet, jsLookup, hax, chars]
    | some b =>
      simp only [jsTruthyOpt] at ht
      refine ⟨?_, ?_⟩ <;>
        simp [request, optHeaders, spread, jsSet, jsLookup, jsTruthyOpt, hax, ht, chars]

/-- C8 witness: the amended theorem evaluated at a truthy object body. -/
theorem body_serialization_wit :
    clientEx.axiosConfig = [] ∧ jsTruthy bodyEx = true
      ∧ jsLookup (request clientEx true (chars "post") (chars "products")
          (some bodyEx) []) (chars "data") = some (JsVal.str (jsonStringify bodyEx)) :=
  ⟨rfl, rfl,
    ((body_serialization clientEx true (chars "post") (chars "products")
      (some bodyEx) [] rfl).1 bodyEx rfl rfl).1⟩

/-- C9: the flattening function maps the spec's example to exactly the
expected bracket-suffixed mapping, and in general (whenever the generated
flat keys are distinct) it equals the spec's one-level flattening: each
nested-object value becomes bracket-suffixed flat keys and each scalar keeps
its original key. -/
theorem flatten_one_level :
    parseParamsObject paramsEx []
        = [(chars "status", PValue.str (chars "publish")),
           (chars "meta[key]", PValue.str (chars "color")),
           (chars "meta[value]", PValue.str (chars "red"))]
      ∧ ∀ ps : JQuery, ((specFlattenParams ps).map Prod.fst).Nodup →
          parseParamsObject ps [] = specFlattenParams ps := by
  refine ⟨rfl, fun ps h => ?_⟩
  have := parseParamsObject_fresh ps [] (fun key _ => rfl) h
  simpa using this

/-- C9 witness: the general part of the theorem evaluated at the example
params, whose generated keys are distinct. -/
theorem flatten_one_level_wit :
    ((specFlattenParams paramsEx).map Prod.fst).Nodup
      ∧ parseParamsObject paramsEx [] = specFlattenParams paramsEx :=
  ⟨by decide, flatten_one_level.2 paramsEx (by decide)⟩

/-- C10: the client's configuration is immutable — after any sequence of
get/post/put/delete/options calls, every configuration field equals its
value from construction time. -/
theorem config_immutable (env : Bool) (c : Client) (calls : List Call) :
    (runCalls env c calls).url = c.url
      ∧ (runCalls env c calls).wpAPIPrefix = c.wpAPIPrefix
      ∧ (runCalls env c calls).version = c.version
      ∧ (runCalls env c calls).jwtToken = c.jwtToken
      ∧ (runCalls env c calls).encoding = c.encoding
      ∧ (runCalls env c calls).port = c.port
      ∧ (runCalls env c calls).timeout = c.timeout
      ∧ (runCalls env c calls).axiosConfig = c.axiosConfig
      ∧ (runCalls env c calls).classVersion = c.classVersion := by
  have h : ∀ c2 : Client, runCalls env c2 calls = c2 := by
    induction calls with
    | nil => intro c2; rfl
    | cons call rest ih =>
      intro c2
      have h1 : (runCall c2 env call).1 = c2 := by cases call <;> rfl
      calc runCalls env c2 (call :: rest) = runCalls env (runCall c2 env call).1 rest := rfl
        _ = c2 := by rw [h1]; exact ih _
  rw [h c]
  exact ⟨rfl, rfl, rfl, rfl, rfl, rfl, rfl, rfl, rfl⟩

end Woo
